import Mathlib

/-
Verification of the aconcat audio concatenation tool (Go sources) against its
natural-language specification.  The Go functions are shallowly embedded as
executable Lean definitions: strings are Lean strings, 64-bit signed integer
arithmetic is modelled on Int with an explicit wrap at 2^64, and float64
arithmetic is modelled exactly over the rationals (the concrete values used in
the theorems below are exactly representable as IEEE doubles, so the models
agree with the binary there).  External effects (the filesystem and the ffmpeg
subprocess) are modelled by an explicit environment oracle, and the main
pipeline is a pure function from that oracle to a run result that records the
externally observable outcome: exit code, the external commands invoked, and
which temporary artifacts were created and removed.
-/

/-! ## String helpers (models of Go standard library functions) -/

/-- Model of strings.ToLower restricted to ASCII, which is all the tool
compares (audio file extensions). -/
def toLowerStr (s : String) : String :=
  String.mk (s.toList.map Char.toLower)

/-- Model of path/filepath.Ext: the suffix of the final path element starting
at its final dot, or the empty string when the final element has no dot. -/
def extOf (p : String) : String :=
  let revTail := p.toList.reverse.takeWhile (fun c => c ≠ '/')
  if revTail.contains '.' then
    String.mk ('.' :: (revTail.takeWhile (fun c => c ≠ '.')).reverse)
  else ""

/-- Model of path/filepath.Base: strip trailing slashes and keep the last
path element, with the Go special cases for the empty and all-slash paths. -/
def baseName (p : String) : String :=
  if p = "" then "." else
  let r := p.toList.reverse.dropWhile (fun c => c = '/')
  if r.isEmpty then "/" else String.mk ((r.takeWhile (fun c => c ≠ '/')).reverse)

/-- Model of strings.TrimSuffix: drop the suffix when present, otherwise
return the string unchanged. -/
def trimSuffix (s suf : String) : String :=
  if suf.toList.isSuffixOf s.toList then
    String.mk (s.toList.take (s.toList.length - suf.toList.length))
  else s

/-- Model of path/filepath.Join for the shapes used by the tool (a clean
directory joined with a clean file name); Join additionally runs Clean, which
is the identity on such inputs. -/
def joinPath (a b : String) : String := a ++ "/" ++ b

/-! ## Progress parser (model of parseProgressLine and its regular expression)

The Go code matches each diagnostic line against the regular expression
  out_time_ms=(\d+)|time=(\d+):(\d+):(\d+\.\d+)
with Go regexp (RE2) leftmost-first semantics: the match starting at the
earliest position wins, and at a given position the first alternative is tried
first.  Because every greedy digit run in the pattern is followed by a
character that is not a digit (or by nothing), backtracking never shortens a
run, so a deterministic take-all-digits matcher is exactly equivalent. -/

/-- Match a literal character list at the head of the input, returning the
rest of the input on success. -/
def matchLit : List Char → List Char → Option (List Char)
  | [], s => some s
  | _ :: _, [] => none
  | c :: cs, x :: xs => if x = c then matchLit cs xs else none

/-- Try the first alternative out_time_ms=(\d+) at this position; returns the
captured digit run. -/
def matchAlt1 (s : List Char) : Option (List Char) :=
  match matchLit "out_time_ms=".toList s with
  | none => none
  | some rest =>
    let ds := rest.takeWhile Char.isDigit
    if ds.isEmpty then none else some ds

/-- Try the second alternative time=(\d+):(\d+):(\d+\.\d+) at this position;
returns the captured hour, minute, whole-second and fractional-second digit
runs. -/
def matchAlt2 (s : List Char) : Option (List Char × List Char × List Char × List Char) :=
  match matchLit "time=".toList s with
  | none => none
  | some r1 =>
    let h := r1.takeWhile Char.isDigit
    let r2 := r1.dropWhile Char.isDigit
    if h.isEmpty then none else
    match r2 with
    | ':' :: r3 =>
      let m := r3.takeWhile Char.isDigit
      let r4 := r3.dropWhile Char.isDigit
      if m.isEmpty then none else
      match r4 with
      | ':' :: r5 =>
        let si := r5.takeWhile Char.isDigit
        let r6 := r5.dropWhile Char.isDigit
        if si.isEmpty then none else
        match r6 with
        | '.' :: r7 =>
          let sf := r7.takeWhile Char.isDigit
          if sf.isEmpty then none else some (h, m, si, sf)
        | _ => none
      | _ => none
    | _ => none

/-- Result of FindStringSubmatch against the progress regular expression:
either the microsecond-counter alternative or the formatted-time
alternative, with their capture groups. -/
inductive FfMatch where
  | ms (ds : List Char)
  | hms (h m si sf : List Char)
deriving DecidableEq, Repr

/-- Leftmost match of the progress regular expression: scan positions left to
right, trying the first alternative before the second at each position. -/
def findFfMatch : List Char → Option FfMatch
  | [] => none
  | c :: rest =>
    match matchAlt1 (c :: rest) with
    | some ds => some (.ms ds)
    | none =>
      match matchAlt2 (c :: rest) with
      | some (h, m, si, sf) => some (.hms h m si sf)
      | none => findFfMatch rest

/-- Numeric value of a digit run. -/
def digitsToNat (ds : List Char) : Nat :=
  ds.foldl (fun a c => a * 10 + (c.toNat - 48)) 0

/-- Model of strconv.ParseInt (and strconv.Atoi on a 64-bit platform) applied
to a nonempty run of decimal digits: succeeds exactly when the value fits in
a signed 64-bit integer. -/
def parseInt64 (ds : List Char) : Option Nat :=
  let n := digitsToNat ds
  if n ≤ 2 ^ 63 - 1 then some n else none

/-- Exact-value model of strconv.ParseFloat applied to the captured string
I.F of the seconds group: the error case is the range error raised when the
value would round to infinity; in-range values are kept exact (every seconds
value appearing in the theorems below is exactly representable as a float64). -/
def parseFloat64 (si sf : List Char) : Option ℚ :=
  let q : ℚ := (digitsToNat si : ℚ) + (digitsToNat sf : ℚ) / (10 : ℚ) ^ sf.length
  if q < 2 ^ 1024 - 2 ^ 970 then some q else none

/-- Wrap an integer to the signed 64-bit range, the defined Go semantics of
overflowing int arithmetic on a 64-bit platform. -/
def int64wrap (n : Int) : Int := (n + 2 ^ 63) % 2 ^ 64 - 2 ^ 63

/-- Truncation toward zero of a rational, the behaviour of the Go float64 to
int conversion whenever the truncated value is representable in int64. -/
def truncQ (q : ℚ) : Int := if 0 ≤ q then ⌊q⌋ else -⌊-q⌋

/-- The Go float64 to int conversion on the x86_64 target this repository
declares (archlinux/PKGBUILD): the conversion is implementation-dependent
when the truncated value does not fit in int64, and on amd64 the CVTTSD2SI
instruction then yields the integer-indefinite value, the minimum int64;
in-range values truncate toward zero. -/
def goFloatToInt (q : ℚ) : Int :=
  if truncQ q < -(2 ^ 63) ∨ 2 ^ 63 - 1 < truncQ q then -(2 ^ 63) else truncQ q

/-- Model of parseProgressLine from src/unnamed/part_002: extracts a progress
percentage from one line of ffmpeg diagnostic output.  The microsecond branch
computes int((timeMs/1000000)*multiplier*10) and clamps it to maxProgress =
100; since timeMs is at most 2^63-1, the scaled value stays far inside the
int64 range for the multipliers the program passes (1 and 2), where the Go
conversion is plain truncation toward zero, so that branch uses truncQ.  When
ParseInt overflows, the source falls through to parsing the (empty)
formatted-time groups, whose Atoi fails, yielding 0.  The formatted branch
computes int((float64(hours*3600+minutes*60)+seconds)*multiplier) clamped to
100, with the int arithmetic wrapping at 64 bits; there the seconds capture
alone can push the product out of the int64 range, so the conversion is
modelled by goFloatToInt, which reproduces the amd64 out-of-range result. -/
def parseProgressLine (line : String) (multiplier : ℚ) : Int :=
  match findFfMatch line.toList with
  | none => 0
  | some (.ms ds) =>
    match parseInt64 ds with
    | some timeMs => min (truncQ (((timeMs : ℚ) / 1000000) * multiplier * 10)) 100
    | none => 0
  | some (.hms h m si sf) =>
    match parseInt64 h, parseInt64 m, parseFloat64 si sf with
    | some hours, some minutes, some seconds =>
      let totalSeconds : ℚ :=
        ((int64wrap (int64wrap ((hours : Int) * 3600) + int64wrap ((minutes : Int) * 60))) : ℚ) + seconds
      min (goFloatToInt (totalSeconds * multiplier)) 100
    | _, _, _ => 0

/-! ### Evaluation helpers

The rational arithmetic in the parser cannot be evaluated by kernel reduction
(the Rat operations are irreducible), so concrete runs of the parser are
computed by first deciding the string-scanning and integer components and then
normalising the rational arithmetic. -/

theorem parseProgress_hms_eval (line : String) (h m si sf : List Char) (mult : ℚ)
    (hfm : findFfMatch line.toList = some (.hms h m si sf))
    (hv mv : Nat) (hph : parseInt64 h = some hv) (hpm : parseInt64 m = some mv)
    (sq : ℚ) (hps : parseFloat64 si sf = some sq) :
    parseProgressLine line mult =
      min (goFloatToInt ((((int64wrap (int64wrap ((hv : Int) * 3600) + int64wrap ((mv : Int) * 60))) : ℚ) + sq) * mult)) 100 := by
  simp only [parseProgressLine, hfm, hph, hpm, hps]

theorem parseProgress_ms_eval (line : String) (ds : List Char) (mult : ℚ)
    (hfm : findFfMatch line.toList = some (.ms ds))
    (tv : Nat) (hpt : parseInt64 ds = some tv) :
    parseProgressLine line mult =
      min (truncQ (((tv : ℚ) / 1000000) * mult * 10)) 100 := by
  simp only [parseProgressLine, hfm, hpt]

theorem parseFloat64_eval (si sf : List Char) (a b k : Nat)
    (ha : digitsToNat si = a) (hb : digitsToNat sf = b) (hk : sf.length = k)
    (q : ℚ) (hq : (a : ℚ) + (b : ℚ) / 10 ^ k = q) (hlt : q < 2 ^ 1024 - 2 ^ 970) :
    parseFloat64 si sf = some q := by
  simp only [parseFloat64, ha, hb, hk, hq, if_pos hlt]

theorem truncQ_eval_nonneg (q : ℚ) (z : Int) (h0 : 0 ≤ q)
    (h1 : (z : ℚ) ≤ q) (h2 : q < z + 1) : truncQ q = z := by
  simp only [truncQ, if_pos h0]
  exact Int.floor_eq_iff.mpr ⟨h1, h2⟩

theorem min_truncQ_eq (q : ℚ) (z : Int) (hz : z ≤ 100) (h0 : 0 ≤ q)
    (h1 : (z : ℚ) ≤ q) (h2 : q < z + 1) : min (truncQ q) 100 = z := by
  rw [truncQ_eval_nonneg q z h0 h1 h2]
  exact min_eq_left hz

/-! ## Pipeline model (main from src/unnamed/part_002)

External effects are abstracted by an environment oracle: the results of
filepath.Abs, os.Stat and os.Open for each path, and the success of each
external ffmpeg invocation and of each temporary-resource operation.  The run
result records the externally observable outcome.  Deferred cleanup follows
the Go semantics exactly: logrus.Fatalf terminates through os.Exit(1), which
does not run deferred functions, while a normal return from main does. -/

/-- Result of os.Stat for a path. -/
inductive StatRes where
  | notExist
  | accessErr
  | info (isRegular : Bool)
deriving DecidableEq, Repr

/-- Validation error categories of validateInputFile, in source order. -/
inductive VErr where
  | absFail
  | notFound
  | accessFail
  | notRegular
  | notReadable
deriving DecidableEq, Repr

/-- Environment oracle for one run: filesystem answers and the success or
failure of each external operation. -/
structure Env where
  abs : String → Option String
  stat : String → StatRes
  openOk : String → Bool
  tmpRoot : String
  mkdirOk : Bool
  reencodeOk : String → Bool
  createTempOk : Bool
  listFileName : String
  writeOk : String → Bool
  readOk : Bool
  concatOk : Bool
  finalOk : Bool

/-- The set of recognized audio extensions (audioExtensions in the source). -/
def audioExtensions : List String :=
  [".mp3", ".wav", ".flac", ".aac", ".ogg", ".m4a", ".wma", ".opus"]

/-- Model of validateInputFile: absolute path, stat (distinguishing the
not-exist error), regular-file check, open check, then the extension warning.
The function only inspects the file; the returned Bool is true when the
warning about an unrecognized extension is emitted. -/
def validateInputFile (env : Env) (filePath : String) : Except VErr Bool :=
  match env.abs filePath with
  | none => .error .absFail
  | some absPath =>
    match env.stat absPath with
    | .notExist => .error .notFound
    | .accessErr => .error .accessFail
    | .info isReg =>
      if isReg = false then .error .notRegular
      else if env.openOk absPath = false then .error .notReadable
      else .ok (!(audioExtensions.contains (toLowerStr (extOf absPath))))

/-- True when the validation result is an error. -/
def isVErr : Except VErr Bool → Bool
  | .error _ => true
  | .ok _ => false

/-- The validation loop of main: validate inputs in order and stop at the
first failure (logger.Fatalf). -/
def validateAll (env : Env) : List String → Option VErr
  | [] => none
  | f :: rest =>
    match validateInputFile env f with
    | .error e => some e
    | .ok _ => validateAll env rest

/-- An external command invocation. -/
structure Cmd where
  prog : String
  args : List String
deriving DecidableEq, Repr

/-- Path of the intermediate file for one input: base name of the absolute
path plus the suffix _converted.flac inside the temporary directory. -/
def convertedPath (tempDir absPath : String) : String :=
  joinPath tempDir (baseName absPath ++ "_converted.flac")

/-- The re-encode command built from the -sample-rate flag value (line 235 of
src/unnamed/part_002); it is overwritten before execution. -/
def reencodeFlagCmd (rate : Int) (absPath conv : String) : Cmd :=
  { prog := "ffmpeg",
    args := ["-i", absPath, "-ar", toString rate, "-ac", "2", "-c:a", "flac", conv] }

/-- The re-encode command actually executed (line 244 of
src/unnamed/part_002), with the hardcoded sample rate 48000. -/
def reencodeExecCmd (absPath conv : String) : Cmd :=
  { prog := "ffmpeg",
    args := ["-i", absPath, "-ar", "48000", "-ac", "2", "-c:a", "flac",
             "-progress", "-", conv] }

/-- The concatenation command. -/
def concatCmd (listName flacFile : String) : Cmd :=
  { prog := "ffmpeg",
    args := ["-f", "concat", "-safe", "0", "-i", listName, "-c", "copy",
             "-progress", "-", flacFile] }

/-- The final re-encode command. -/
def finalCmd (flacFile finalOutput : String) : Cmd :=
  { prog := "ffmpeg", args := ["-i", flacFile, "-progress", "-", finalOutput] }

/-- The per-file re-encode loop of main: for each input take the absolute
path, compute the intermediate path, build the flag-based command, overwrite
it with the hardcoded-rate command, and run that one.  Returns the executed
invocations and intermediate paths, or the invocations executed so far when a
step fails fatally. -/
def reencodeLoop (env : Env) (tempDir : String) (rate : Int) :
    List String → Except (List Cmd) (List Cmd × List String)
  | [] => .ok ([], [])
  | f :: rest =>
    match env.abs f with
    | none => .error []
    | some a =>
      let conv := convertedPath tempDir a
      let cmd := reencodeFlagCmd rate a conv
      let cmd := reencodeExecCmd a conv
      if env.reencodeOk a then
        match reencodeLoop env tempDir rate rest with
        | .ok (cmds, files) => .ok (cmd :: cmds, conv :: files)
        | .error cmds => .error (cmd :: cmds)
      else .error [cmd]

/-- The manifest-writing loop: one line per intermediate file, in order;
stops at the first write failure. -/
def writeManifest (env : Env) : List String → Except String String
  | [] => .ok ""
  | f :: rest =>
    if env.writeOk f then
      match writeManifest env rest with
      | .ok s => .ok ("file \x27" ++ f ++ "\x27\n" ++ s)
      | .error s => .error ("file \x27" ++ f ++ "\x27\n" ++ s)
    else .error ""

/-- Expected manifest text for a list of intermediate files. -/
def manifestText (files : List String) : String :=
  files.foldr (fun f acc => "file \x27" ++ f ++ "\x27\n" ++ acc) ""

/-- Observable outcome of one run of main. -/
structure RunResult where
  exitCode : Nat
  usagePrinted : Bool
  invocations : List Cmd
  tempDirCreated : Bool
  tempDirRemoved : Bool
  manifestCreated : Bool
  manifestRemoved : Bool
  manifestContent : String
  finalEncodeInvoked : Bool
  finalPath : Option String
  flacIntermediateRemoved : Bool
deriving DecidableEq, Repr

/-- Model of main from src/unnamed/part_002: help and argument checks,
validation, temporary directory creation, per-file re-encode, manifest
creation and write-back, concatenation, and the conditional final re-encode.
Fatal halts model logrus.Fatalf, whose os.Exit(1) skips the deferred
os.RemoveAll(tempDir) and os.Remove(listFile), so on those paths the
temporary state is left behind; a normal return runs both defers. -/
def runMain (help : Bool) (output : String) (rate : Int) (inputs : List String)
    (env : Env) : RunResult :=
  if help then
    { exitCode := 0, usagePrinted := true, invocations := [],
      tempDirCreated := false, tempDirRemoved := false, manifestCreated := false,
      manifestRemoved := false, manifestContent := "", finalEncodeInvoked := false,
      finalPath := none, flacIntermediateRemoved := false }
  else if inputs.length < 2 ∨ output = "" then
    { exitCode := 1, usagePrinted := true, invocations := [],
      tempDirCreated := false, tempDirRemoved := false, manifestCreated := false,
      manifestRemoved := false, manifestContent := "", finalEncodeInvoked := false,
      finalPath := none, flacIntermediateRemoved := false }
  else
    match validateAll env inputs with
    | some _ =>
      { exitCode := 1, usagePrinted := false, invocations := [],
        tempDirCreated := false, tempDirRemoved := false, manifestCreated := false,
        manifestRemoved := false, manifestContent := "", finalEncodeInvoked := false,
        finalPath := none, flacIntermediateRemoved := false }
    | none =>
      let tempDir := joinPath env.tmpRoot "audio_concat"
      if env.mkdirOk = false then
        { exitCode := 1, usagePrinted := false, invocations := [],
          tempDirCreated := false, tempDirRemoved := false, manifestCreated := false,
          manifestRemoved := false, manifestContent := "", finalEncodeInvoked := false,
          finalPath := none, flacIntermediateRemoved := false }
      else
        match reencodeLoop env tempDir rate inputs with
        | .error cmds =>
          { exitCode := 1, usagePrinted := false, invocations := cmds,
            tempDirCreated := true, tempDirRemoved := false, manifestCreated := false,
            manifestRemoved := false, manifestContent := "", finalEncodeInvoked := false,
            finalPath := none, flacIntermediateRemoved := false }
        | .ok (cmds, converted) =>
          if env.createTempOk = false then
            { exitCode := 1, usagePrinted := false, invocations := cmds,
              tempDirCreated := true, tempDirRemoved := false, manifestCreated := false,
              manifestRemoved := false, manifestContent := "", finalEncodeInvoked := false,
              finalPath := none, flacIntermediateRemoved := false }
          else
            match writeManifest env converted with
            | .error pw =>
              { exitCode := 1, usagePrinted := false, invocations := cmds,
                tempDirCreated := true, tempDirRemoved := false, manifestCreated := true,
                manifestRemoved := false, manifestContent := pw,
                finalEncodeInvoked := false, finalPath := none,
                flacIntermediateRemoved := false }
            | .ok content =>
              if env.readOk = false then
                { exitCode := 1, usagePrinted := false, invocations := cmds,
                  tempDirCreated := true, tempDirRemoved := false, manifestCreated := true,
                  manifestRemoved := false, manifestContent := content,
                  finalEncodeInvoked := false, finalPath := none,
                  flacIntermediateRemoved := false }
              else
                let flacFile := trimSuffix output (extOf output) ++ ".flac"
                let ccmd := concatCmd env.listFileName flacFile
                if env.concatOk = false then
                  { exitCode := 1, usagePrinted := false, invocations := cmds ++ [ccmd],
                    tempDirCreated := true, tempDirRemoved := false, manifestCreated := true,
                    manifestRemoved := false, manifestContent := content,
                    finalEncodeInvoked := false, finalPath := none,
                    flacIntermediateRemoved := false }
                else
                  if toLowerStr (extOf output) ≠ ".flac" then
                    let fcmd := finalCmd flacFile output
                    if env.finalOk = false then
                      { exitCode := 1, usagePrinted := false,
                        invocations := cmds ++ [ccmd, fcmd],
                        tempDirCreated := true, tempDirRemoved := false,
                        manifestCreated := true, manifestRemoved := false,
                        manifestContent := content, finalEncodeInvoked := true,
                        finalPath := none, flacIntermediateRemoved := false }
                    else
                      { exitCode := 0, usagePrinted := false,
                        invocations := cmds ++ [ccmd, fcmd],
                        tempDirCreated := true, tempDirRemoved := true,
                        manifestCreated := true, manifestRemoved := true,
                        manifestContent := content, finalEncodeInvoked := true,
                        finalPath := some output, flacIntermediateRemoved := true }
                  else
                    { exitCode := 0, usagePrinted := false, invocations := cmds ++ [ccmd],
                      tempDirCreated := true, tempDirRemoved := true,
                      manifestCreated := true, manifestRemoved := true,
                      manifestContent := content, finalEncodeInvoked := false,
                      finalPath := some flacFile, flacIntermediateRemoved := false }

/-- The environment of a run in which every filesystem answer and every
external invocation succeeds: inputs are already absolute paths of readable
regular files. -/
def allOkEnv : Env :=
  { abs := fun p => some p, stat := fun _ => .info true, openOk := fun _ => true,
    tmpRoot := "/tmp", mkdirOk := true, reencodeOk := fun _ => true,
    createTempOk := true, listFileName := "/tmp/concat-list-1.txt",
    writeOk := fun _ => true, readOk := true, concatOk := true, finalOk := true }

/-! ## Process runner model (runFFmpegWithProgress)

The runner reads diagnostic lines, feeds each to the parser and writes every
positive parse to the progress bar with Set (an absolute write, not a
maximum); after a successful wait it forces the bar to 100. -/

/-- The sequence of positive parser values written to the progress bar by the
scanner loop. -/
def positiveParses (lines : List String) (mult : ℚ) : List Int :=
  lines.filterMap (fun l =>
    let p := parseProgressLine l mult
    if 0 < p then some p else none)

/-- The full sequence of values written to the progress bar by
runFFmpegWithProgress: nothing when the command fails to start, the positive
parses of the diagnostic lines, and a forced 100 after a successful wait. -/
def runnerWrites (startOk : Bool) (lines : List String) (mult : ℚ)
    (waitOk : Bool) : List Int :=
  if startOk then
    positiveParses lines mult ++ (if waitOk then [100] else [])
  else []

/-! ## Supporting lemmas -/

theorem validateAll_allOk (l : List String) : validateAll allOkEnv l = none := by
  induction l with
  | nil => rfl
  | cons f rest ih =>
    simp only [allOkEnv] at ih ⊢
    simp [validateAll, validateInputFile, ih]

theorem reencodeLoop_allOk (td : String) (rate : Int) (l : List String) :
    reencodeLoop allOkEnv td rate l =
      .ok (l.map (fun f => reencodeExecCmd f (convertedPath td f)),
           l.map (fun f => convertedPath td f)) := by
  induction l with
  | nil => rfl
  | cons f rest ih =>
    simp only [allOkEnv] at ih ⊢
    simp [reencodeLoop, ih]

theorem writeManifest_allOk (l : List String) :
    writeManifest allOkEnv l = .ok (manifestText l) := by
  induction l with
  | nil => rfl
  | cons f rest ih =>
    simp only [allOkEnv] at ih ⊢
    simp [writeManifest, manifestText, ih]

theorem reencodeLoop_rate_irrel (env : Env) (td : String) (r r2 : Int)
    (l : List String) : reencodeLoop env td r l = reencodeLoop env td r2 l := by
  induction l with
  | nil => rfl
  | cons f rest ih => simp only [reencodeLoop, ih]

theorem validateAll_ne_none (env : Env) (f : String) (l : List String)
    (hf : f ∈ l) (he : isVErr (validateInputFile env f) = true) :
    validateAll env l ≠ none := by
  induction l with
  | nil => exact absurd hf (List.not_mem_nil f)
  | cons g rest ih =>
    rcases List.mem_cons.mp hf with h | h
    · subst h
      cases hv : validateInputFile env f with
      | error e => simp [validateAll, hv]
      | ok w => rw [hv] at he; simp [isVErr] at he
    · cases hv : validateInputFile env g with
      | error e => simp [validateAll, hv]
      | ok w => simpa [validateAll, hv] using ih h

theorem parseProgressLine_le_100 (line : String) (m : ℚ) :
    parseProgressLine line m ≤ 100 := by
  unfold parseProgressLine
  repeat' split
  all_goals first
  | exact min_le_right _ _
  | decide

theorem positiveParses_le_100 (lines : List String) (m : ℚ) :
    ∀ x ∈ positiveParses lines m, x ≤ 100 := by
  intro x hx
  simp only [positiveParses, List.mem_filterMap] at hx
  obtain ⟨l, _, hl⟩ := hx
  by_cases hp : 0 < parseProgressLine l m
  · rw [if_pos hp] at hl
    cases hl
    exact parseProgressLine_le_100 l m
  · rw [if_neg hp] at hl
    exact Option.noConfusion hl

theorem chain_append_100 (xs : List Int) (hle : ∀ x ∈ xs, x ≤ 100)
    (hc : List.Chain' (· ≤ ·) xs) : List.Chain' (· ≤ ·) (xs ++ [100]) := by
  induction xs with
  | nil => simp
  | cons a t ih =>
    cases t with
    | nil =>
      exact List.chain'_cons.mpr ⟨hle a (List.mem_cons_self a []), List.chain'_singleton 100⟩
    | cons b t2 =>
      rw [List.chain'_cons] at hc
      have h2 := ih (fun x hx => hle x (List.mem_cons_of_mem a hx)) hc.2
      simp only [List.cons_append] at h2 ⊢
      exact List.chain'_cons.mpr ⟨hc.1, h2⟩

theorem matchLit_append (p s : List Char) : matchLit p (p ++ s) = some s := by
  induction p with
  | nil => rfl
  | cons c cs ih => simp [matchLit, ih]

theorem takeWhile_all (p : Char → Bool) (l : List Char) (h : ∀ c ∈ l, p c = true) :
    l.takeWhile p = l := by
  induction l with
  | nil => rfl
  | cons c t ih =>
    rw [List.takeWhile_cons, if_pos (h c (List.mem_cons_self c t))]
    rw [ih (fun x hx => h x (List.mem_cons_of_mem _ hx))]

theorem findFfMatch_ms (ds : List Char) (hne : ds.isEmpty = false)
    (hdig : ∀ c ∈ ds, c.isDigit = true) :
    findFfMatch ("out_time_ms=".toList ++ ds) = some (.ms ds) := by
  have h1 : matchAlt1 ("out_time_ms=".toList ++ ds) = some ds := by
    unfold matchAlt1
    rw [matchLit_append]
    show (if (ds.takeWhile Char.isDigit).isEmpty = true then none
          else some (ds.takeWhile Char.isDigit)) = some ds
    rw [takeWhile_all Char.isDigit ds hdig, hne]
    simp
  rw [show ("out_time_ms=".toList ++ ds) = 'o' :: ("ut_time_ms=".toList ++ ds) from rfl] at h1 ⊢
  rw [findFfMatch, h1]

theorem min_truncQ_100 (q : ℚ) (h : (100 : ℚ) ≤ q) : min (truncQ q) 100 = 100 := by
  have h0 : (0 : ℚ) ≤ q := le_trans (by norm_num) h
  rw [truncQ, if_pos h0]
  exact min_eq_right (Int.le_floor.mpr (by exact_mod_cast h))

theorem truncQ_intCast (z : Int) : truncQ ((z : ℚ)) = z := by
  unfold truncQ
  split
  · exact Int.floor_intCast z
  · rw [← Int.cast_neg, Int.floor_intCast]
    exact neg_neg z

theorem min_goFloat_eq (q : ℚ) (z : Int) (hz0 : 0 ≤ z) (hz : z ≤ 100) (h0 : 0 ≤ q)
    (h1 : (z : ℚ) ≤ q) (h2 : q < z + 1) : min (goFloatToInt q) 100 = z := by
  have ht : truncQ q = z := truncQ_eval_nonneg q z h0 h1 h2
  unfold goFloatToInt
  rw [ht, if_neg (not_or.mpr ⟨not_lt.mpr (le_trans (by norm_num) hz0),
    not_lt.mpr (le_trans hz (by norm_num))⟩)]
  exact min_eq_left hz

theorem min_goFloat_100 (q : ℚ) (h : (100 : ℚ) ≤ q) (hub : q < 2 ^ 63) :
    min (goFloatToInt q) 100 = 100 := by
  have h0 : (0 : ℚ) ≤ q := le_trans (by norm_num) h
  have ht : truncQ q = ⌊q⌋ := by rw [truncQ, if_pos h0]
  have hf1 : (100 : Int) ≤ ⌊q⌋ := Int.le_floor.mpr (by exact_mod_cast h)
  have hfu : ⌊q⌋ < 2 ^ 63 := by
    rw [Int.floor_lt]
    push_cast
    exact hub
  unfold goFloatToInt
  rw [ht, if_neg (not_or.mpr ⟨not_lt.mpr (le_trans (by norm_num) hf1),
    not_lt.mpr (by have := Int.lt_iff_add_one_le.mp hfu; linarith)⟩)]
  exact min_eq_right hf1

/-- True when the formatted-time fields of this line are small enough that
the signed 64-bit computation hours*3600+minutes*60 cannot wrap and the
subsequent float64 to int conversion of the scaled total (with multiplier at
most 2) cannot leave the int64 range: the bound also covers the whole and
fractional second captures, whose parsed value is at most their digit
values. -/
def hmsSafe (line : String) : Bool :=
  match findFfMatch line.toList with
  | some (.hms h m si sf) =>
    match parseInt64 h, parseInt64 m with
    | some hv, some mv =>
      decide ((hv * 3600 + mv * 60 + digitsToNat si + digitsToNat sf) * 2 < 2 ^ 63)
    | _, _ => true
  | _ => true

/-! ## Claims about the progress parser -/

/-- Claim C3: the parser yields 90 for the line time=00:01:30.50 with
multiplier 1 and 100 (clamped) with multiplier 2, and yields 0 for every
multiplier on a line matching neither timestamp pattern. -/
theorem claim_C3 :
    parseProgressLine "time=00:01:30.50" 1 = 90 ∧
    parseProgressLine "time=00:01:30.50" 2 = 100 ∧
    ∀ (line : String) (m : ℚ), findFfMatch line.toList = none →
      parseProgressLine line m = 0 := by
  refine ⟨?_, ?_, ?_⟩
  · rw [parseProgress_hms_eval _ "00".toList "01".toList "30".toList "50".toList 1
      (by decide) 0 1 (by decide) (by decide) (61/2)
      (parseFloat64_eval _ _ 30 50 2 (by decide) (by decide) (by decide) _
        (by norm_num) (by norm_num))]
    exact min_goFloat_eq _ 90 (by decide) (by decide) (by norm_num [int64wrap])
      (by norm_num [int64wrap]) (by norm_num [int64wrap])
  · rw [parseProgress_hms_eval _ "00".toList "01".toList "30".toList "50".toList 2
      (by decide) 0 1 (by decide) (by decide) (61/2)
      (parseFloat64_eval _ _ 30 50 2 (by decide) (by decide) (by decide) _
        (by norm_num) (by norm_num))]
    exact min_goFloat_100 _ (by norm_num [int64wrap]) (by norm_num [int64wrap])
  · intro line m h
    unfold parseProgressLine
    rw [h]

/-- Claim C3 witness: a concrete line matching neither pattern yields 0. -/
theorem claim_C3_witness : parseProgressLine "frame=1 fps=0.0" 7 = 0 :=
  claim_C3.2.2 "frame=1 fps=0.0" 7 (by decide)

/-- Claim C2 counterexample: the microsecond counter out_time_ms=5000000
carries 5 elapsed seconds, yet the parser returns 50 with multiplier 1 while
the formatted line with the same elapsed time (time=00:00:05.0) returns 5, so
the microsecond branch does not return elapsed-seconds times the multiplier
and does not agree with the formatted branch. -/
theorem claim_C2_counterexample :
    parseProgressLine "out_time_ms=5000000" 1 = 50 ∧
    parseProgressLine "time=00:00:05.0" 1 = 5 ∧
    parseProgressLine "out_time_ms=5000000" 1 ≠
      parseProgressLine "time=00:00:05.0" 1 := by
  have e1 : parseProgressLine "out_time_ms=5000000" 1 = 50 := by
    rw [parseProgress_ms_eval _ "5000000".toList 1 (by decide) 5000000 (by decide)]
    exact min_truncQ_eq _ 50 (by decide) (by norm_num) (by norm_num) (by norm_num)
  have e2 : parseProgressLine "time=00:00:05.0" 1 = 5 := by
    rw [parseProgress_hms_eval _ "00".toList "00".toList "05".toList "0".toList 1
      (by decide) 0 0 (by decide) (by decide) 5
      (parseFloat64_eval _ _ 5 0 1 (by decide) (by decide) (by decide) _
        (by norm_num) (by norm_num))]
    exact min_goFloat_eq _ 5 (by decide) (by decide) (by norm_num [int64wrap])
      (by norm_num [int64wrap]) (by norm_num [int64wrap])
  exact ⟨e1, e2, by rw [e1, e2]; decide⟩

/-- Claim C2 (amended): on a line consisting of the microsecond-counter match
out_time_ms=N (digits N fitting in int64), the parser returns the truncation
of (N/10^6) times the multiplier times 10, clamped to 100 — ten times the
elapsed-seconds percentage, so it does not agree with the formatted-time
encoding of the same elapsed time in general. -/
theorem claim_C2_amended (ds : List Char) (m : ℚ) (hne : ds.isEmpty = false)
    (hdig : ∀ c ∈ ds, c.isDigit = true) (hrange : digitsToNat ds ≤ 2 ^ 63 - 1) :
    parseProgressLine (String.mk ("out_time_ms=".toList ++ ds)) m =
      min (truncQ (((digitsToNat ds : ℚ) / 1000000) * m * 10)) 100 := by
  have ht : (String.mk ("out_time_ms=".toList ++ ds)).toList =
      "out_time_ms=".toList ++ ds := rfl
  exact parseProgress_ms_eval _ ds m (by rw [ht]; exact findFfMatch_ms ds hne hdig)
    (digitsToNat ds) (by simp only [parseInt64]; exact if_pos hrange)

/-- Claim C2 witness: the amended formula evaluated on out_time_ms=7500000
with multiplier 2. -/
theorem claim_C2_witness :
    parseProgressLine (String.mk ("out_time_ms=".toList ++ "7500000".toList)) 2 =
      min (truncQ (((digitsToNat "7500000".toList : ℚ) / 1000000) * 2 * 10)) 100 :=
  claim_C2_amended "7500000".toList 2 (by decide) (by decide) (by decide)

/-- The formatted-time branch reproduces the amd64 out-of-range conversion:
a seconds capture of 10^19 (a finite float64 above the int64 range) drives
the parser to the minimum int64 even though no int wrap occurs, and hmsSafe
correctly excludes such a line. -/
theorem parseProgress_seconds_overflow :
    parseProgressLine "time=0:0:10000000000000000000.0" 1 = -9223372036854775808 ∧
    hmsSafe "time=0:0:10000000000000000000.0" = false := by
  refine ⟨?_, by decide⟩
  rw [parseProgress_hms_eval _ "0".toList "0".toList "10000000000000000000".toList
    "0".toList 1 (by decide) 0 0 (by decide) (by decide) 10000000000000000000
    (parseFloat64_eval _ _ 10000000000000000000 0 1 (by decide) (by decide) (by decide) _
      (by norm_num) (by norm_num))]
  have hw0 : int64wrap (int64wrap (((0 : Nat) : Int) * 3600) +
      int64wrap (((0 : Nat) : Int) * 60)) = 0 := by decide
  rw [hw0]
  have hq : (((0 : Int) : ℚ) + 10000000000000000000) * 1 =
      ((10000000000000000000 : Int) : ℚ) := by push_cast; ring
  rw [hq]
  have hg : goFloatToInt (((10000000000000000000 : Int) : ℚ)) = -(2 ^ 63) := by
    unfold goFloatToInt
    rw [truncQ_intCast, if_pos (Or.inr (by norm_num))]
  rw [hg]
  decide

/-- Claim C8 counterexample: during one phase with the re-encode multiplier 2,
the diagnostic line sequence out_time_ms=3000000 then time=00:00:01.0 makes
the runner write 60 and then 2 — the values written to the progress indicator
are not monotonically non-decreasing, because Set writes the parsed value
unconditionally. -/
theorem claim_C8_counterexample :
    runnerWrites true ["out_time_ms=3000000", "time=00:00:01.0"] 2 true =
      [60, 2, 100] ∧
    ¬ List.Chain' (· ≤ ·)
      (runnerWrites true ["out_time_ms=3000000", "time=00:00:01.0"] 2 true) := by
  have e1 : parseProgressLine "out_time_ms=3000000" 2 = 60 := by
    rw [parseProgress_ms_eval _ "3000000".toList 2 (by decide) 3000000 (by decide)]
    exact min_truncQ_eq _ 60 (by decide) (by norm_num) (by norm_num) (by norm_num)
  have e2 : parseProgressLine "time=00:00:01.0" 2 = 2 := by
    rw [parseProgress_hms_eval _ "00".toList "00".toList "01".toList "0".toList 2
      (by decide) 0 0 (by decide) (by decide) 1
      (parseFloat64_eval _ _ 1 0 1 (by decide) (by decide) (by decide) _
        (by norm_num) (by norm_num))]
    exact min_goFloat_eq _ 2 (by decide) (by decide) (by norm_num [int64wrap])
      (by norm_num [int64wrap]) (by norm_num [int64wrap])
  have hw : runnerWrites true ["out_time_ms=3000000", "time=00:00:01.0"] 2 true =
      [60, 2, 100] := by
    simp [runnerWrites, positiveParses, e1, e2]
  refine ⟨hw, fun hcontra => ?_⟩
  rw [hw, List.chain'_cons] at hcontra
  exact absurd hcontra.1 (by decide)

/-- Claim C8 (amended): the runner writes exactly the positive parser values
followed by a forced 100 on success, with no maximum applied, so the written
sequence is monotonically non-decreasing exactly when the positive parser
values themselves arrive in non-decreasing order (each phase constructs a
fresh indicator, so the counter restarts from zero between phases). -/
theorem claim_C8_amended (startOk waitOk : Bool) (lines : List String) (m : ℚ)
    (hc : List.Chain' (· ≤ ·) (positiveParses lines m)) :
    List.Chain' (· ≤ ·) (runnerWrites startOk lines m waitOk) := by
  cases startOk with
  | false => simp [runnerWrites]
  | true =>
    cases waitOk with
    | false => simpa [runnerWrites] using hc
    | true =>
      have h2 := chain_append_100 (positiveParses lines m)
        (positiveParses_le_100 lines m) hc
      simpa [runnerWrites] using h2

/-- Claim C8 witness: a monotone sequence of positive parses yields monotone
writes (evaluated on lines whose parses are 0, giving an empty positive
sequence and the forced final 100). -/
theorem claim_C8_witness :
    List.Chain' (· ≤ ·) (runnerWrites true ["speed=1.0x", "frame=3"] 1 true) :=
  claim_C8_amended true true ["speed=1.0x", "frame=3"] 1 (by
    have h0 : positiveParses ["speed=1.0x", "frame=3"] 1 = [] := by decide
    rw [h0]
    exact List.chain'_nil)

/-! ## Claims about the pipeline -/

theorem runMain_allOk (output : String) (rate : Int) (inputs : List String)
    (h2 : 2 ≤ inputs.length) (hout : output ≠ "") :
    runMain false output rate inputs allOkEnv =
      if toLowerStr (extOf output) ≠ ".flac" then
        { exitCode := 0, usagePrinted := false,
          invocations :=
            (inputs.map fun f =>
              reencodeExecCmd f (convertedPath (joinPath "/tmp" "audio_concat") f)) ++
            [concatCmd "/tmp/concat-list-1.txt" (trimSuffix output (extOf output) ++ ".flac"),
             finalCmd (trimSuffix output (extOf output) ++ ".flac") output],
          tempDirCreated := true, tempDirRemoved := true, manifestCreated := true,
          manifestRemoved := true,
          manifestContent :=
            manifestText (inputs.map fun f => convertedPath (joinPath "/tmp" "audio_concat") f),
          finalEncodeInvoked := true, finalPath := some output,
          flacIntermediateRemoved := true }
      else
        { exitCode := 0, usagePrinted := false,
          invocations :=
            (inputs.map fun f =>
              reencodeExecCmd f (convertedPath (joinPath "/tmp" "audio_concat") f)) ++
            [concatCmd "/tmp/concat-list-1.txt" (trimSuffix output (extOf output) ++ ".flac")],
          tempDirCreated := true, tempDirRemoved := true, manifestCreated := true,
          manifestRemoved := true,
          manifestContent :=
            manifestText (inputs.map fun f => convertedPath (joinPath "/tmp" "audio_concat") f),
          finalEncodeInvoked := false,
          finalPath := some (trimSuffix output (extOf output) ++ ".flac"),
          flacIntermediateRemoved := false } := by
  have hguard : ¬(inputs.length < 2 ∨ output = "") := by
    push_neg
    exact ⟨h2, hout⟩
  unfold runMain
  rw [if_neg (by simp : ¬(false = true)), if_neg hguard]
  simp only [validateAll_allOk]
  rw [if_neg (by simp [allOkEnv] : ¬(allOkEnv.mkdirOk = false))]
  simp only [reencodeLoop_allOk]
  rw [if_neg (by simp [allOkEnv] : ¬(allOkEnv.createTempOk = false))]
  simp only [writeManifest_allOk]
  rw [if_neg (by simp [allOkEnv] : ¬(allOkEnv.readOk = false))]
  rw [if_neg (by simp [allOkEnv] : ¬(allOkEnv.concatOk = false))]
  by_cases hfl : toLowerStr (extOf output) ≠ ".flac"
  · rw [if_pos hfl, if_pos hfl, if_neg (by simp [allOkEnv] : ¬(allOkEnv.finalOk = false))]
    rfl
  · rw [if_neg hfl, if_neg hfl]
    rfl

/-- Environment in which the first external re-encode invocation fails, after
the temporary directory has been created. -/
def reencFailEnv : Env := { allOkEnv with reencodeOk := fun _ => false }

/-- Claim C1: the claim asserts that the temporary directory and the manifest
are removed on every exit path, but a fatal halt goes through logrus.Fatalf,
whose os.Exit(1) skips the deferred os.RemoveAll and os.Remove, so on the
run where the first re-encode fails the created temporary directory is left
behind (while a successful run does remove both). -/
theorem claim_C1_leak :
    (runMain false "out.mp3" 48000 ["a.mp3", "b.mp3"] reencFailEnv).exitCode = 1 ∧
    (runMain false "out.mp3" 48000 ["a.mp3", "b.mp3"] reencFailEnv).tempDirCreated = true ∧
    (runMain false "out.mp3" 48000 ["a.mp3", "b.mp3"] reencFailEnv).tempDirRemoved = false ∧
    (runMain false "out.mp3" 48000 ["a.mp3", "b.mp3"] allOkEnv).tempDirRemoved = true ∧
    (runMain false "out.mp3" 48000 ["a.mp3", "b.mp3"] allOkEnv).manifestRemoved = true := by
  decide

/-- Claim C4: with -help the run prints usage, exits 0 and invokes no
external tool; with fewer than two inputs or an empty output flag the run
prints usage, exits 1 and invokes no external tool. -/
theorem claim_C4 (output : String) (rate : Int) (inputs : List String) (env : Env) :
    ((runMain true output rate inputs env).exitCode = 0 ∧
     (runMain true output rate inputs env).usagePrinted = true ∧
     (runMain true output rate inputs env).invocations = []) ∧
    (inputs.length < 2 ∨ output = "" →
     (runMain false output rate inputs env).exitCode = 1 ∧
     (runMain false output rate inputs env).usagePrinted = true ∧
     (runMain false output rate inputs env).invocations = []) := by
  refine ⟨⟨rfl, rfl, rfl⟩, fun h => ?_⟩
  have e : runMain false output rate inputs env =
      { exitCode := 1, usagePrinted := true, invocations := [],
        tempDirCreated := false, tempDirRemoved := false, manifestCreated := false,
        manifestRemoved := false, manifestContent := "", finalEncodeInvoked := false,
        finalPath := none, flacIntermediateRemoved := false } := by
    unfold runMain
    rw [if_neg (by simp : ¬(false = true)), if_pos h]
  rw [e]
  exact ⟨rfl, rfl, rfl⟩

/-- Claim C4 witness: the missing-output case at a concrete input. -/
theorem claim_C4_witness :
    (runMain false "" 0 [] allOkEnv).exitCode = 1 ∧
    (runMain false "" 0 [] allOkEnv).usagePrinted = true ∧
    (runMain false "" 0 [] allOkEnv).invocations = [] :=
  (claim_C4 "" 0 [] allOkEnv).2 (Or.inr rfl)

/-- Claim C5: the validator reports not-found for an absent path,
not-regular-file for a non-regular path, not-readable for a regular file that
cannot be opened, and succeeds on a readable regular file, flagging the
warning exactly when the (lower-cased) extension is outside the known audio
set; and any validation failure makes the run exit 1 before any external
invocation.  (The validator is a pure function of the file status in this
embedding: it performs no mutation.) -/
theorem claim_C5 (env : Env) (p a : String) :
    (env.abs p = some a → env.stat a = .notExist →
      validateInputFile env p = .error .notFound) ∧
    (env.abs p = some a → env.stat a = .info false →
      validateInputFile env p = .error .notRegular) ∧
    (env.abs p = some a → env.stat a = .info true → env.openOk a = false →
      validateInputFile env p = .error .notReadable) ∧
    (env.abs p = some a → env.stat a = .info true → env.openOk a = true →
      validateInputFile env p =
        .ok (!(audioExtensions.contains (toLowerStr (extOf a))))) ∧
    (∀ (output : String) (rate : Int) (inputs : List String) (f : String),
      f ∈ inputs → isVErr (validateInputFile env f) = true →
      (runMain false output rate inputs env).invocations = [] ∧
      (runMain false output rate inputs env).exitCode = 1) := by
  refine ⟨?_, ?_, ?_, ?_, ?_⟩
  · intro h1 h2
    simp only [validateInputFile, h1, h2]
  · intro h1 h2
    simp only [validateInputFile, h1, h2]
    simp
  · intro h1 h2 h3
    simp only [validateInputFile, h1, h2, h3]
    simp
  · intro h1 h2 h3
    simp only [validateInputFile, h1, h2, h3]
    simp
  · intro output rate inputs f hmem hverr
    by_cases hguard : inputs.length < 2 ∨ output = ""
    · have e : runMain false output rate inputs env =
          { exitCode := 1, usagePrinted := true, invocations := [],
            tempDirCreated := false, tempDirRemoved := false, manifestCreated := false,
            manifestRemoved := false, manifestContent := "", finalEncodeInvoked := false,
            finalPath := none, flacIntermediateRemoved := false } := by
        unfold runMain
        rw [if_neg (by simp : ¬(false = true)), if_pos hguard]
      rw [e]
      exact ⟨rfl, rfl⟩
    · have hne := validateAll_ne_none env f inputs hmem hverr
      cases hva : validateAll env inputs with
      | none => exact absurd hva hne
      | some err =>
        have e : runMain false output rate inputs env =
            { exitCode := 1, usagePrinted := false, invocations := [],
              tempDirCreated := false, tempDirRemoved := false, manifestCreated := false,
              manifestRemoved := false, manifestContent := "", finalEncodeInvoked := false,
              finalPath := none, flacIntermediateRemoved := false } := by
          unfold runMain
          rw [if_neg (by simp : ¬(false = true)), if_neg hguard]
          simp only [hva]
        rw [e]
        exact ⟨rfl, rfl⟩

/-- Environment in which every path reports not-exist from os.Stat. -/
def notFoundEnv : Env := { allOkEnv with stat := fun _ => .notExist }

/-- Claim C5 witness: a concrete absent path yields the not-found error, and
a run containing it exits 1 with no invocations. -/
theorem claim_C5_witness :
    validateInputFile notFoundEnv "missing.mp3" = .error .notFound ∧
    (runMain false "o.mp3" 48000 ["missing.mp3", "b.mp3"] notFoundEnv).invocations = [] ∧
    (runMain false "o.mp3" 48000 ["missing.mp3", "b.mp3"] notFoundEnv).exitCode = 1 :=
  ⟨(claim_C5 notFoundEnv "missing.mp3" "missing.mp3").1 rfl rfl,
   ((claim_C5 notFoundEnv "missing.mp3" "missing.mp3").2.2.2.2 "o.mp3" 48000
     ["missing.mp3", "b.mp3"] "missing.mp3" (by simp) (by decide)).1,
   ((claim_C5 notFoundEnv "missing.mp3" "missing.mp3").2.2.2.2 "o.mp3" 48000
     ["missing.mp3", "b.mp3"] "missing.mp3" (by simp) (by decide)).2⟩

/-- Claim C6: the final re-encode invocation happens exactly when the
lower-cased requested output extension differs from .flac; when it happens
the combined intermediate is re-encoded to the requested path and then
removed, and when it does not happen the combined intermediate (the .flac
file derived from the requested path) is itself the final output and the only
invocations are the per-file re-encodes plus the concatenation. -/
theorem claim_C6 (output : String) (inputs : List String)
    (h2 : 2 ≤ inputs.length) (hout : output ≠ "") :
    ((runMain false output 48000 inputs allOkEnv).finalEncodeInvoked = true ↔
      toLowerStr (extOf output) ≠ ".flac") ∧
    (toLowerStr (extOf output) ≠ ".flac" →
      finalCmd (trimSuffix output (extOf output) ++ ".flac") output ∈
        (runMain false output 48000 inputs allOkEnv).invocations ∧
      (runMain false output 48000 inputs allOkEnv).finalPath = some output ∧
      (runMain false output 48000 inputs allOkEnv).flacIntermediateRemoved = true) ∧
    (toLowerStr (extOf output) = ".flac" →
      (runMain false output 48000 inputs allOkEnv).finalEncodeInvoked = false ∧
      (runMain false output 48000 inputs allOkEnv).finalPath =
        some (trimSuffix output (extOf output) ++ ".flac") ∧
      (runMain false output 48000 inputs allOkEnv).invocations.length =
        inputs.length + 1 ∧
      (runMain false output 48000 inputs allOkEnv).flacIntermediateRemoved = false) := by
  rw [runMain_allOk output 48000 inputs h2 hout]
  by_cases hfl : toLowerStr (extOf output) = ".flac"
  · rw [if_neg (not_not_intro hfl)]
    exact ⟨by simp [hfl], fun hx => absurd hfl hx, fun _ => ⟨rfl, rfl, by simp, rfl⟩⟩
  · rw [if_pos hfl]
    exact ⟨by simp [hfl], fun _ => ⟨by simp, rfl, rfl⟩, fun hx => absurd hx hfl⟩

/-- Claim C6 witness: requesting out.mp3 makes the final re-encode happen and
produce out.mp3; requesting out.flac keeps the combined intermediate. -/
theorem claim_C6_witness :
    (finalCmd (trimSuffix "out.mp3" (extOf "out.mp3") ++ ".flac") "out.mp3" ∈
      (runMain false "out.mp3" 48000 ["a.mp3", "b.mp3"] allOkEnv).invocations ∧
     (runMain false "out.mp3" 48000 ["a.mp3", "b.mp3"] allOkEnv).finalPath =
       some "out.mp3" ∧
     (runMain false "out.mp3" 48000 ["a.mp3", "b.mp3"] allOkEnv).flacIntermediateRemoved = true) ∧
    ((runMain false "out.flac" 48000 ["a.mp3", "b.mp3"] allOkEnv).finalEncodeInvoked = false ∧
     (runMain false "out.flac" 48000 ["a.mp3", "b.mp3"] allOkEnv).finalPath =
       some (trimSuffix "out.flac" (extOf "out.flac") ++ ".flac") ∧
     (runMain false "out.flac" 48000 ["a.mp3", "b.mp3"] allOkEnv).invocations.length =
       (["a.mp3", "b.mp3"] : List String).length + 1 ∧
     (runMain false "out.flac" 48000 ["a.mp3", "b.mp3"] allOkEnv).flacIntermediateRemoved = false) :=
  ⟨(claim_C6 "out.mp3" ["a.mp3", "b.mp3"] (by decide) (by decide)).2.1 (by decide),
   (claim_C6 "out.flac" ["a.mp3", "b.mp3"] (by decide) (by decide)).2.2 (by decide)⟩

theorem runMain_rate_irrel (help : Bool) (output : String) (r r2 : Int)
    (inputs : List String) (env : Env) :
    runMain help output r inputs env = runMain help output r2 inputs env := by
  simp only [runMain]
  rw [reencodeLoop_rate_irrel env (joinPath env.tmpRoot "audio_concat") r r2]

theorem reencodeExecCmd_infix (a conv : String) :
    List.IsInfix ["-ar", "48000"] (reencodeExecCmd a conv).args :=
  ⟨["-i", a], ["-ac", "2", "-c:a", "flac", "-progress", "-", conv], rfl⟩

theorem reencodeLoop_ok_infix (env : Env) (td : String) (rate : Int) :
    ∀ (l : List String) (cmds : List Cmd) (files : List String),
      reencodeLoop env td rate l = .ok (cmds, files) →
      ∀ c ∈ cmds, List.IsInfix ["-ar", "48000"] c.args := by
  intro l
  induction l with
  | nil =>
    intro cmds files hloop c hc
    simp only [reencodeLoop] at hloop
    cases hloop
    simp at hc
  | cons f rest ih =>
    intro cmds files hloop c hc
    simp only [reencodeLoop] at hloop
    split at hloop
    · exact Except.noConfusion hloop
    · split at hloop
      · split at hloop
        · rename_i hrec
          cases hloop
          rcases List.mem_cons.mp hc with hh | hh
          · subst hh
            exact reencodeExecCmd_infix _ _
          · exact ih _ _ hrec c hh
        · exact Except.noConfusion hloop
      · exact Except.noConfusion hloop

/-- Claim C9: the executed invocation list of a run is independent of the
value of the -sample-rate flag; every per-file re-encode command actually
executed carries the hardcoded arguments -ar 48000; and the command built
from the flag (which is overwritten before execution) differs from the
executed command, so the flag has no effect on any external invocation. -/
theorem claim_C9 :
    (∀ (help : Bool) (output : String) (r r2 : Int) (inputs : List String) (env : Env),
      (runMain help output r inputs env).invocations =
        (runMain help output r2 inputs env).invocations) ∧
    (∀ (env : Env) (td : String) (rate : Int) (l : List String)
      (cmds : List Cmd) (files : List String),
      reencodeLoop env td rate l = .ok (cmds, files) →
      ∀ c ∈ cmds, List.IsInfix ["-ar", "48000"] c.args) ∧
    (∀ (rate : Int) (a conv : String), reencodeFlagCmd rate a conv ≠ reencodeExecCmd a conv) := by
  refine ⟨?_, ?_, ?_⟩
  · intro help output r r2 inputs env
    rw [runMain_rate_irrel help output r r2 inputs env]
  · intro env td rate l cmds files hloop c hc
    exact reencodeLoop_ok_infix env td rate l cmds files hloop c hc
  · intro rate a conv hcon
    have hlen := congrArg (fun c => c.args.length) hcon
    simp [reencodeFlagCmd, reencodeExecCmd] at hlen

/-- Claim C9 witness: two runs differing only in the flag produce the same
invocations, and the executed re-encode command carries -ar 48000. -/
theorem claim_C9_witness :
    (runMain false "o.mp3" 44100 ["a.mp3", "b.mp3"] allOkEnv).invocations =
      (runMain false "o.mp3" 48000 ["a.mp3", "b.mp3"] allOkEnv).invocations ∧
    List.IsInfix ["-ar", "48000"]
      (reencodeExecCmd "a.mp3"
        (convertedPath (joinPath "/tmp" "audio_concat") "a.mp3")).args :=
  ⟨claim_C9.1 false "o.mp3" 44100 48000 ["a.mp3", "b.mp3"] allOkEnv,
   claim_C9.2.1 allOkEnv (joinPath "/tmp" "audio_concat") 44100 ["a.mp3"]
     [reencodeExecCmd "a.mp3" (convertedPath (joinPath "/tmp" "audio_concat") "a.mp3")]
     [convertedPath (joinPath "/tmp" "audio_concat") "a.mp3"] rfl
     (reencodeExecCmd "a.mp3" (convertedPath (joinPath "/tmp" "audio_concat") "a.mp3"))
     (by simp)⟩

/-- Claim C10: the intermediate path depends only on the base name of the
(absolute) input path, so two distinct inputs with equal base names are
re-encoded to the same intermediate file, and the manifest of a run on those
two inputs lists that one intermediate path twice. -/
theorem claim_C10 (p1 p2 output : String) (hne : p1 ≠ p2)
    (hbase : baseName p1 = baseName p2) (hout : output ≠ "") :
    convertedPath (joinPath "/tmp" "audio_concat") p1 =
      convertedPath (joinPath "/tmp" "audio_concat") p2 ∧
    (runMain false output 48000 [p1, p2] allOkEnv).manifestContent =
      manifestText [convertedPath (joinPath "/tmp" "audio_concat") p1,
                    convertedPath (joinPath "/tmp" "audio_concat") p1] ∧
    (runMain false output 48000 [p1, p2] allOkEnv).invocations.take 2 =
      [reencodeExecCmd p1 (convertedPath (joinPath "/tmp" "audio_concat") p1),
       reencodeExecCmd p2 (convertedPath (joinPath "/tmp" "audio_concat") p1)] := by
  have hcv : convertedPath (joinPath "/tmp" "audio_concat") p2 =
      convertedPath (joinPath "/tmp" "audio_concat") p1 := by
    unfold convertedPath
    rw [hbase]
  refine ⟨hcv.symm, ?_, ?_⟩
  · rw [runMain_allOk output 48000 [p1, p2] (by simp) hout]
    by_cases hfl : toLowerStr (extOf output) = ".flac"
    · rw [if_neg (not_not_intro hfl)]
      simp only [List.map_cons, List.map_nil, hcv]
    · rw [if_pos hfl]
      simp only [List.map_cons, List.map_nil, hcv]
  · rw [runMain_allOk output 48000 [p1, p2] (by simp) hout]
    by_cases hfl : toLowerStr (extOf output) = ".flac"
    · rw [if_neg (not_not_intro hfl)]
      simp [hcv]
    · rw [if_pos hfl]
      simp [hcv]

/-- Claim C10 witness: two distinct absolute paths with the same base name
collide on the intermediate file and the manifest lists it twice. -/
theorem claim_C10_witness :
    convertedPath (joinPath "/tmp" "audio_concat") "/x/a.mp3" =
      convertedPath (joinPath "/tmp" "audio_concat") "/y/a.mp3" ∧
    (runMain false "o.wav" 48000 ["/x/a.mp3", "/y/a.mp3"] allOkEnv).manifestContent =
      manifestText [convertedPath (joinPath "/tmp" "audio_concat") "/x/a.mp3",
                    convertedPath (joinPath "/tmp" "audio_concat") "/x/a.mp3"] :=
  ⟨(claim_C10 "/x/a.mp3" "/y/a.mp3" "o.wav" (by decide) (by decide) (by decide)).1,
   (claim_C10 "/x/a.mp3" "/y/a.mp3" "o.wav" (by decide) (by decide) (by decide)).2.1⟩
